import Mathlib

/-!
Verification of the banquet notation parser (banquet.go) and the sqlite
composer (sqlite/compose.go) against its specification.

Go byte strings are modelled as lists of characters; every Go string
helper used by the parser (strings.Split, strings.SplitN, strings.Contains,
strings.HasPrefix, strings.TrimSpace, strconv.Atoi, strconv.Itoa,
strconv.ParseFloat, url.QueryUnescape, url.ParseQuery, url.Parse) is given
an explicit executable model, and the parser's functions are translated
one-to-one from the source, keeping their names.
-/

namespace Banquet

/-- Go strings are modelled as lists of characters. -/
abbrev Str := List Char

/-- Embed a Lean string literal into the list-of-characters model. -/
def str (s : String) : Str := s.data

/-- Model of strings.HasPrefix. -/
def hasPre : Str → Str → Bool
  | _, [] => true
  | [], _ :: _ => false
  | c :: cs, p :: ps => c == p && hasPre cs ps

/-- Model of strings.HasSuffix. -/
def hasSuf (s suf : Str) : Bool := hasPre s.reverse suf.reverse

/-- Model of strings.ContainsRune (single-character strings.Contains). -/
def containsCh (c : Char) : Str → Bool
  | [] => false
  | x :: xs => x == c || containsCh c xs

/-- Model of strings.Contains for a multi-character substring. -/
def containsSub : Str → Str → Bool
  | [], sub => sub.isEmpty
  | c :: cs, sub => hasPre (c :: cs) sub || containsSub cs sub

/-- Index of the first occurrence of a character. -/
def idxCh (c : Char) : Str → Option Nat
  | [] => none
  | x :: xs => if x == c then some 0 else (idxCh c xs).map (· + 1)

/-- Index of the first occurrence of a substring (model of strings.Index). -/
def idxSeq (sub : Str) : Str → Option Nat
  | [] => if sub.isEmpty then some 0 else none
  | c :: cs => if hasPre (c :: cs) sub then some 0 else (idxSeq sub cs).map (· + 1)

/-- Split at the first occurrence of a character (model of strings.Cut with a
one-character separator; the separator itself is dropped). -/
def cutCh (c : Char) : Str → Option (Str × Str)
  | [] => none
  | x :: xs =>
    if x == c then some ([], xs)
    else (cutCh c xs).map (fun p => (x :: p.1, p.2))

/-- Split at the first occurrence of a substring (model of strings.SplitN with
limit 2, as a pair). -/
def cutSeq (sub s : Str) : Option (Str × Str) :=
  match idxSeq sub s with
  | none => none
  | some i => some (s.take i, s.drop (i + sub.length))

/-- Model of strings.Split with a single-character separator: always returns a
non-empty list of parts. -/
def splitCh (c : Char) : Str → List Str
  | [] => [[]]
  | x :: xs =>
    if x == c then [] :: splitCh c xs
    else
      match splitCh c xs with
      | [] => [[x]]
      | h :: t => (x :: h) :: t

/-- Model of strings.SplitN with a single-character separator. -/
def goSplitN (c : Char) : Nat → Str → List Str
  | 0, _ => []
  | 1, s => [s]
  | n + 2, s =>
    match cutCh c s with
    | none => [s]
    | some p => p.1 :: goSplitN c (n + 1) p.2

/-- Whitespace characters per Go unicode.IsSpace. -/
def isSpaceGo (c : Char) : Bool :=
  c == ' ' || c == '\t' || c == '\n' || c.toNat == 11 || c.toNat == 12 || c == '\r' ||
  c.toNat == 0x85 || c.toNat == 0xA0 || c.toNat == 0x1680 ||
  (0x2000 ≤ c.toNat && c.toNat ≤ 0x200A) || c.toNat == 0x2028 || c.toNat == 0x2029 ||
  c.toNat == 0x202F || c.toNat == 0x205F || c.toNat == 0x3000

/-- Drop the longest suffix of characters satisfying a predicate. -/
def trimRightP (p : Char → Bool) : Str → Str
  | [] => []
  | c :: cs =>
    match trimRightP p cs with
    | [] => if p c then [] else [c]
    | h :: t => c :: h :: t

/-- Model of strings.TrimSpace. -/
def goTrimSpace (s : Str) : Str := (trimRightP isSpaceGo s).dropWhile isSpaceGo

/-- Model of strings.Trim with cutset consisting of the slash character. -/
def goTrimSlash (s : Str) : Str := (trimRightP (· == '/') s).dropWhile (· == '/')

/-- Model of strings.TrimPrefix. -/
def trimPreStr (p s : Str) : Str := if hasPre s p then s.drop p.length else s

/-- Model of strings.Join with a separator. -/
def joinSep (sep : Str) : List Str → Str
  | [] => []
  | [x] => x
  | x :: y :: t => x ++ sep ++ joinSep sep (y :: t)

/-- Concatenation of the images of a list under a list-valued function. -/
def flatMapL (f : α → List β) : List α → List β
  | [] => []
  | x :: xs => f x ++ flatMapL f xs

/-- Suffix following the last occurrence of a character, if any. -/
def afterLastCh (c : Char) : Str → Option Str
  | [] => none
  | x :: xs =>
    match afterLastCh c xs with
    | some r => some r
    | none => if x == c then some xs else none

/-- Decimal digit test. -/
def isDigitC (c : Char) : Bool := '0' ≤ c && c ≤ '9'

/-- Value of a decimal digit. -/
def digitVal (c : Char) : Nat := c.toNat - '0'.toNat

/-- Accumulating decimal evaluation; fails on a non-digit. -/
def digitsValAux : Str → Nat → Option Nat
  | [], acc => some acc
  | c :: cs, acc => if isDigitC c then digitsValAux cs (acc * 10 + digitVal c) else none

/-- Decimal value of a non-empty all-digit string. -/
def digitsVal : Str → Option Nat
  | [] => none
  | c :: cs => if isDigitC c then digitsValAux cs (digitVal c) else none

/-- Model of strconv.Atoi: optional sign, decimal digits, 64-bit range check. -/
def goAtoi (s : Str) : Option Int :=
  match s with
  | '+' :: rest =>
    (digitsVal rest).bind (fun n => if n ≤ 9223372036854775807 then some (Int.ofNat n) else none)
  | '-' :: rest =>
    (digitsVal rest).bind (fun n => if n ≤ 9223372036854775808 then some (-(Int.ofNat n)) else none)
  | _ =>
    (digitsVal s).bind (fun n => if n ≤ 9223372036854775807 then some (Int.ofNat n) else none)

/-- Model of strconv.Itoa. -/
def goItoa (i : Int) : Str :=
  if i < 0 then '-' :: Nat.toDigits 10 i.natAbs else Nat.toDigits 10 i.natAbs

/-- Hexadecimal digit test. -/
def isHexDigitC (c : Char) : Bool :=
  isDigitC c || ('a' ≤ c && c ≤ 'f') || ('A' ≤ c && c ≤ 'F')

/-- Value of a hexadecimal digit. -/
def hexVal (c : Char) : Nat :=
  if isDigitC c then digitVal c
  else if 'a' ≤ c && c ≤ 'f' then c.toNat - 'a'.toNat + 10
  else c.toNat - 'A'.toNat + 10

/-- ASCII lower-casing (model of strconv's lower / strings.ToLower on ASCII). -/
def lowerC (c : Char) : Char :=
  if 'A' ≤ c && c ≤ 'Z' then Char.ofNat (c.toNat + 32) else c

/-- Model of url.QueryUnescape: percent-decoding with plus-to-space, failing on a
malformed percent escape.  Decoded bytes are modelled at character granularity. -/
def queryUnescape : Str → Option Str
  | [] => some []
  | '%' :: a :: b :: rest =>
    if isHexDigitC a && isHexDigitC b then
      (queryUnescape rest).map (fun r => Char.ofNat (hexVal a * 16 + hexVal b) :: r)
    else none
  | ['%'] => none
  | ['%', _] => none
  | '+' :: rest => (queryUnescape rest).map (fun r => ' ' :: r)
  | c :: rest => (queryUnescape rest).map (fun r => c :: r)

/-- Model of percent-decoding in path mode (url.Parse's setPath): like
queryUnescape but without plus-to-space. -/
def pathUnescape : Str → Option Str
  | [] => some []
  | '%' :: a :: b :: rest =>
    if isHexDigitC a && isHexDigitC b then
      (pathUnescape rest).map (fun r => Char.ofNat (hexVal a * 16 + hexVal b) :: r)
    else none
  | ['%'] => none
  | ['%', _] => none
  | c :: rest => (pathUnescape rest).map (fun r => c :: r)

/-! Model of strconv.ParseFloat(s, 64) acceptance, translated from strconv's
atof.go: the special inf/nan forms, readFloat's mantissa/exponent scan, and
underscoreOK, composed with ParseFloat's full-consumption requirement. -/

/-- Case-insensitive (ASCII) string equality. -/
def eqIC (s t : Str) : Bool := s.map lowerC == t.map lowerC

/-- Model of strconv's special(): full-string inf/nan forms. -/
def specialOk (s : Str) : Bool :=
  match s with
  | [] => false
  | c :: cs =>
    if c == '+' || c == '-' then eqIC cs (str "inf") || eqIC cs (str "infinity")
    else if lowerC c == 'i' then eqIC (c :: cs) (str "inf") || eqIC (c :: cs) (str "infinity")
    else if lowerC c == 'n' then eqIC (c :: cs) (str "nan")
    else false

/-- Scanning loop of strconv's underscoreOK; saw is the marker for the previous
character category. -/
def underscoreOKLoop (hex : Bool) : Str → Char → Bool
  | [], saw => saw != '_'
  | c :: cs, saw =>
    if c == '_' then (if saw == '0' then underscoreOKLoop hex cs '_' else false)
    else if isDigitC c || (hex && 'a' ≤ lowerC c && lowerC c ≤ 'f') then
      underscoreOKLoop hex cs '0'
    else if saw == '_' then false
    else underscoreOKLoop hex cs '!'

/-- Model of strconv's underscoreOK. -/
def underscoreOK (s : Str) : Bool :=
  let s1 := match s with
    | c :: cs => if c == '-' || c == '+' then cs else c :: cs
    | [] => []
  match s1 with
  | '0' :: x :: rest =>
    if lowerC x == 'x' then underscoreOKLoop true rest '0'
    else underscoreOKLoop false ('0' :: x :: rest) '^'
  | t => underscoreOKLoop false t '^'

/-- Mantissa scan of strconv's readFloat: digits, underscores, and at most one
dot; returns (sawDigits, sawUnderscore, rest). -/
def scanMant (hex : Bool) : Str → Bool → Bool → Bool → Bool × Bool × Str
  | [], _, d, u => (d, u, [])
  | c :: cs, dot, d, u =>
    if c == '_' then scanMant hex cs dot d true
    else if c == '.' then (if dot then (d, u, c :: cs) else scanMant hex cs true d u)
    else if isDigitC c || (hex && 'a' ≤ lowerC c && lowerC c ≤ 'f') then
      scanMant hex cs dot true u
    else (d, u, c :: cs)

/-- Exponent digit scan of readFloat: digits and underscores. -/
def scanExpDigits : Str → Bool → Bool × Str
  | [], u => (u, [])
  | c :: cs, u =>
    if isDigitC c then scanExpDigits cs u
    else if c == '_' then scanExpDigits cs true
    else (u, c :: cs)

/-- Model of readFloat acceptance on the whole string. -/
def readFloatOk (s : Str) : Bool :=
  match s with
  | [] => false
  | c0 :: cs0 =>
    let s1 := if c0 == '+' || c0 == '-' then cs0 else c0 :: cs0
    let hx := match s1 with
      | '0' :: x :: _ => lowerC x == 'x'
      | _ => false
    let s2 := if hx then s1.drop 2 else s1
    let m := scanMant hx s2 false false false
    if !m.1 then false
    else
      let expChar := if hx then 'p' else 'e'
      match m.2.2 with
      | [] => if hx then false else (!m.2.1 || underscoreOK (c0 :: cs0))
      | c :: rest =>
        if lowerC c == expChar then
          let rest2 := match rest with
            | c2 :: cs2 => if c2 == '+' || c2 == '-' then cs2 else c2 :: cs2
            | [] => []
          match rest2 with
          | [] => false
          | d :: _ =>
            if !isDigitC d then false
            else
              let e := scanExpDigits rest2 false
              if !e.2.isEmpty then false
              else (!(m.2.1 || e.1) || underscoreOK (c0 :: cs0))
        else false

/-- Model of strconv.ParseFloat(s, 64) success. -/
def goParseFloatOk (s : Str) : Bool := specialOk s || readFloatOk s

/-! The banquet parser, translated function by function from banquet.go. -/

/-- Sort-direction token for ascending order (banquet.go line 62). -/
def ASC : Str := ['+']

/-- Sort-direction token for descending order (banquet.go line 64). -/
def DESC : Str := ['-']

/-- The inequality filter operator. -/
def strNE : Str := ['!', '=']

/-- File-extension test of the heuristic tier split (banquet.go lines 245-252). -/
def extMatch (part : Str) : Bool :=
  hasSuf part (str ".zip") || hasSuf part (str ".csv") || hasSuf part (str ".sqlite") ||
  hasSuf part (str ".db") || hasSuf part (str ".xlsx") || hasSuf part (str ".json") ||
  (hasSuf part (str ".html") && !(part == str "test.html")) || hasSuf part (str ".txt")

/-- Heuristic extension-split loop (banquet.go lines 243-260): the first segment
whose suffix matches a dataset extension ends the dataset path. -/
def heurSplit : List Str → Option (List Str × List Str)
  | [] => none
  | p :: ps =>
    if extMatch p then some ([p], ps)
    else (heurSplit ps).map (fun r => (p :: r.1, r.2))

/-- banquet.go lines 228-262: split the raw path into dataset path, table, and
column path, explicitly on semicolons or heuristically on file extensions. -/
def parseDataSetColumnPath (rawpath : Str) : Str × Str × Str :=
  if containsCh ';' rawpath then
    let parts := goSplitN ';' 3 rawpath
    (parts.headD [], (parts.drop 1).headD [], (parts.drop 2).headD [])
  else
    match heurSplit (splitCh '/' rawpath) with
    | some r => (joinSep (str "/") r.1, [], joinSep (str "/") r.2)
    | none => (rawpath, [], [])

/-- Indicator for a segment that clearly carries column/sort/condition syntax
(banquet.go lines 274-278). -/
def segIndicator (part : Str) : Bool :=
  containsCh ',' part || hasPre part ASC || hasPre part DESC ||
  containsSub part strNE || (hasPre part (str "[") && containsCh ':' part)

/-- banquet.go lines 265-290: locate the segments of the column path that carry
columns or conditions. -/
def getSegments (columnPath : Str) : List Str :=
  let parts := splitCh '/' columnPath
  if parts = [] ∨ (parts.length = 1 ∧ parts.headD [] = []) then []
  else
    match parts.findIdx? segIndicator with
    | some i => parts.drop i
    | none => [parts.getLastD []]

/-- Per-column processing of ParseSelect's inner loop (banquet.go lines 308-329):
conditions and sort-prefixed tokens are skipped, a bracket suffix is stripped,
and the trimmed remainder is collected when non-empty. -/
def selectTok (col : Str) : Option Str :=
  if containsSub col strNE then none
  else if hasPre col ASC || hasPre col DESC then none
  else
    let col := col.takeWhile (· ≠ '[')
    let col := goTrimSpace col
    if col = [] then none else some col

/-- Segment-level skip of pure slice-notation segments (banquet.go line 301). -/
def segIsSlice (seg : Str) : Bool :=
  hasPre seg (str "[") && hasSuf seg (str "]") && containsCh ':' seg

/-- The columns collected by ParseSelect before defaulting (banquet.go
lines 298-331). -/
def selCollect (segments : List Str) : List Str :=
  flatMapL
    (fun seg =>
      if segIsSlice seg then []
      else if seg = [] then []
      else List.filterMap selectTok (splitCh ',' seg))
    segments

/-- banquet.go lines 292-338: the select list of a column path. -/
def ParseSelect (columnPath : Str) : List Str :=
  let segments := getSegments columnPath
  if segments = [] then [str "*"]
  else
    let collected := selCollect segments
    if collected = [] then [str "*"] else collected

/-- Format a filter value (banquet.go lines 362-373): tolerant percent-decoding,
numeric test, and SQL single-quote escaping. -/
def condValue (val : Str) : Str :=
  let val := match queryUnescape val with | some d => d | none => val
  if goParseFloatOk val then val
  else '\'' :: flatMapL (fun c => if c == '\'' then ['\'', '\''] else [c]) val ++ ['\'']

/-- Per-token condition of parsePathConditions (banquet.go lines 354-377). -/
def condOfTok (part : Str) : Option Str :=
  if containsSub part strNE then
    match cutSeq strNE part with
    | some kv => some (goTrimSpace kv.1 ++ str " != " ++ condValue (goTrimSpace kv.2))
    | none => none
  else none

/-- banquet.go lines 340-385: the conjunction of path-derived filter
conditions. -/
def parsePathConditions (columnPath : Str) : Str :=
  let segments := getSegments columnPath
  if segments = [] then []
  else
    let conditions :=
      flatMapL
        (fun seg => if seg = [] then [] else List.filterMap condOfTok (splitCh ',' seg))
        segments
    if conditions = [] then [] else joinSep (str " AND ") conditions

/-- banquet.go lines 387-405: ad-hoc tolerant extraction of the where query
parameter. -/
def parseWhere (query : Str) : Str :=
  if query = [] then []
  else
    match (splitCh '&' query).find? (fun p => hasPre p (str "where=")) with
    | none => []
    | some p =>
      let val := p.drop 6
      match queryUnescape val with
      | some d => d
      | none => val

/-- Model of url.ParseQuery restricted to the ordered key/value list: settings
are split on ampersands; a setting containing a semicolon, or whose key or
value fails query-unescaping, is skipped. -/
def querySettings (query : Str) : List (Str × Str) :=
  List.filterMap
    (fun kv =>
      if containsCh ';' kv then none
      else if kv = [] then none
      else
        let p := match cutCh '=' kv with | some q => q | none => (kv, [])
        match queryUnescape p.1, queryUnescape p.2 with
        | some k, some v => some (k, v)
        | _, _ => none)
    (splitCh '&' query)

/-- Model of url.ParseQuery followed by Values.Get: first value for the key,
empty when absent. -/
def queryGet (query key : Str) : Str :=
  match (querySettings query).find? (fun p => p.1 == key) with
  | some p => p.2
  | none => []

/-- banquet.go lines 407-423: group-by from the query parameter or the first
parenthesized range of the path. -/
def ParseGroupBy (path query : Str) : Str :=
  let g := queryGet query (str "groupby")
  if g ≠ [] then g
  else
    match idxCh '(' path, idxCh ')' path with
    | some s, some e => if s < e then (path.take e).drop (s + 1) else []
    | _, _ => []

/-- banquet.go lines 429-459: heuristic table resolution from the column path's
first segment. -/
def parseTable (columnPath : Str) : Str :=
  if columnPath = [] then []
  else
    let parts := splitCh '/' (goTrimSlash columnPath)
    if parts = [] ∨ parts.headD [] = [] then []
    else
      let fst := parts.headD []
      if containsCh ',' fst || hasPre fst ASC || hasPre fst DESC ||
         containsSub fst strNE || containsCh '=' fst || containsCh '>' fst ||
         containsCh '<' fst || (hasPre fst (str "[") && containsCh ':' fst)
      then []
      else fst

/-- banquet.go lines 514-564: slice notation at the end of the path, translated
to (limit, offset) strings. -/
def parseSlice (pathStr : Str) : Str × Str :=
  if hasSuf pathStr (str "]") then
    match afterLastCh '[' pathStr.dropLast with
    | none => ([], [])
    | some content =>
      match splitCh ':' content with
      | [p1, p2] =>
        let startStr := goTrimSpace p1
        let endStr := goTrimSpace p2
        let sv := if startStr = [] then some (0 : Int) else goAtoi startStr
        match sv with
        | none => ([], [])
        | some start =>
          if endStr = [] then ([], goItoa start)
          else
            match goAtoi endStr with
            | none => ([], [])
            | some e =>
              let l := e - start
              let l := if l < 0 then 0 else l
              (goItoa l, goItoa start)
      | _ => ([], [])
  else ([], [])

/-- banquet.go lines 461-471. -/
def parseLimit (query path : Str) : Str :=
  let l := queryGet query (str "limit")
  if l ≠ [] then l
  else
    let sl := (parseSlice path).1
    if sl ≠ [] then sl else []

/-- banquet.go lines 473-480. -/
def parseOffset (query path : Str) : Str :=
  let o := queryGet query (str "offset")
  if o ≠ [] then o else (parseSlice path).2

/-- banquet.go lines 482-485. -/
def parseHaving (query : Str) : Str := queryGet query (str "having")

/-- Per-token sort check of parseOrderBy (banquet.go lines 497-508): trim,
strip a bracket suffix, then look for a sort-direction token. -/
def sortTok (col : Str) : Option (Str × Str) :=
  let col := goTrimSpace col
  let col := col.takeWhile (· ≠ '[')
  if hasPre col ASC then some (col.drop 1, str "ASC")
  else if hasPre col DESC then some (col.drop 1, str "DESC")
  else none

/-- banquet.go lines 487-512: order-by column and direction, from the orderby
query parameter or the first sort-prefixed token of the column path. -/
def parseOrderBy (columnPath query : Str) : Str × Str :=
  let ob := queryGet query (str "orderby")
  if ob ≠ [] then (ob, [])
  else
    match (splitCh '/' columnPath).findSome?
        (fun part => (splitCh ',' part).findSome? sortTok) with
    | some r => r
    | none => ([], [])

/-- The Banquet record's query fields (banquet.go lines 41-58), with the
underlying URL reduced to its decoded path and raw query. -/
structure BanquetRec where
  Path : Str
  RawQuery : Str
  Where : Str
  Table : Str
  Select : List Str
  SortDirection : Str
  Limit : Str
  Offset : Str
  GroupBy : Str
  Having : Str
  OrderBy : Str
  DataSetPath : Str
  ColumnPath : Str
deriving DecidableEq

/-- banquet.go lines 107-166: the body of ParseBanquet after url.Parse, as a
function of the decoded path and the raw query. -/
def ParseBanquetFields (path query : Str) : BanquetRec :=
  let tiers := parseDataSetColumnPath path
  let dsp := tiers.1
  let tbl0 := tiers.2.1
  let cp := tiers.2.2
  let tbl := if tbl0 = [] then parseTable cp else tbl0
  let sel0 := ParseSelect cp
  let sel := if sel0 = [tbl] then [str "*"] else sel0
  let queryWhere := parseWhere query
  let pathWhere := parsePathConditions cp
  let whr :=
    if pathWhere ≠ [] then
      (if queryWhere ≠ [] then queryWhere ++ str " AND " ++ pathWhere else pathWhere)
    else queryWhere
  let ob := parseOrderBy cp query
  { Path := path
    RawQuery := query
    Where := whr
    Table := tbl
    Select := sel
    SortDirection := if ob.1 ≠ [] ∧ ob.2 ≠ [] then ob.2 else []
    Limit := parseLimit query path
    Offset := parseOffset query path
    GroupBy := ParseGroupBy path query
    Having := parseHaving query
    OrderBy := if ob.1 ≠ [] then ob.1 else []
    DataSetPath := dsp
    ColumnPath := cp }

/-! The sqlite composer, translated from sqlite/compose.go. -/

/-- sqlite/compose.go QuoteIdentifier: double-quote an identifier, doubling
embedded double quotes; the empty string and the star are left alone. -/
def QuoteIdentifier (s : Str) : Str :=
  if s = [] ∨ s = str "*" then s
  else '"' :: flatMapL (fun c => if c == '"' then ['"', '"'] else [c]) s ++ ['"']

/-- sqlite/compose.go InferTable: fallback table name from the dataset-path
extension. -/
def InferTable (bq : BanquetRec) : Str :=
  if bq.Table ≠ [] then bq.Table
  else
    let lower := bq.DataSetPath.map lowerC
    if hasSuf lower (str ".sqlite") || hasSuf lower (str ".db") then str "sqlite_master"
    else str "tb0"

/-- sqlite/compose.go Compose: render the record as a SQL statement. -/
def Compose (bq : BanquetRec) : Str :=
  let selectClause :=
    if bq.Select ≠ [] ∧ bq.Select.headD [] ≠ str "*" then
      joinSep (str ", ") (bq.Select.map QuoteIdentifier)
    else str "*"
  let table := if bq.Table = [] then InferTable bq else bq.Table
  let parts := [str "SELECT " ++ selectClause, str "FROM " ++ QuoteIdentifier table]
  let parts := parts ++ (if bq.Where ≠ [] then [str "WHERE " ++ bq.Where] else [])
  let parts := parts ++ (if bq.GroupBy ≠ [] then [str "GROUP BY " ++ QuoteIdentifier bq.GroupBy] else [])
  let parts := parts ++ (if bq.Having ≠ [] then [str "HAVING " ++ bq.Having] else [])
  let parts := parts ++
    (if bq.OrderBy ≠ [] then
      [str "ORDER BY " ++ QuoteIdentifier bq.OrderBy ++
        (if bq.SortDirection ≠ [] then str " " ++ bq.SortDirection else [])]
    else [])
  let parts := parts ++ (if bq.Limit ≠ [] then [str "LIMIT " ++ bq.Limit] else [])
  let parts := parts ++ (if bq.Offset ≠ [] then [str "OFFSET " ++ bq.Offset] else [])
  joinSep (str " ") parts

/-! A model of net/url Parse, needed to express when ParseBanquet's URL parse
fails (the error path exercised by ParseNested).  It is restricted to locators
without fragments requiring validation, userinfo, bracketed (IPv6) hosts, or
percent-escaped hosts; on that subset it follows net/url's parse: control
characters are rejected, the scheme is scanned per getScheme, the query is cut
at the first question mark, a relative locator whose first path segment
contains a colon is rejected, and the authority is cut at the next slash. -/

/-- Scheme scan of net/url getScheme. -/
def getSchemeAux (orig : Str) : Str → Nat → Option (Str × Str)
  | [], _ => some ([], orig)
  | c :: cs, i =>
    if ('a' ≤ c && c ≤ 'z') || ('A' ≤ c && c ≤ 'Z') then getSchemeAux orig cs (i + 1)
    else if isDigitC c || c == '+' || c == '-' || c == '.' then
      (if i = 0 then some ([], orig) else getSchemeAux orig cs (i + 1))
    else if c == ':' then
      (if i = 0 then none else some (orig.take i, orig.drop (i + 1)))
    else some ([], orig)

/-- Model of net/url getScheme: (scheme, rest), or failure on a colon at
position zero. -/
def getScheme (s : Str) : Option (Str × Str) := getSchemeAux s s 0

/-- Control characters are rejected by net/url Parse. -/
def ctrlFree (s : Str) : Bool := s.all (fun c => !(c.toNat < 32 || c.toNat == 127))

/-- Host validation, restricted: no userinfo, brackets, or escapes; an optional
port after the last colon must be all digits. -/
def parseHostModel (authority : Str) : Option Str :=
  if containsCh '@' authority || containsCh '[' authority || containsCh ']' authority ||
     containsCh '%' authority then none
  else
    match afterLastCh ':' authority with
    | some port => if port.all isDigitC then some authority else none
    | none => some authority

/-- The outcome of the url.Parse model: scheme, host, wire path, decoded path,
and raw query.  EscapedPath() is modelled by rawPath, which on this subset is
the path exactly as it appeared on the wire. -/
structure GoURL where
  scheme : Str
  host : Str
  rawPath : Str
  path : Str
  rawQuery : Str
deriving DecidableEq

/-- Model of net/url Parse on the restricted subset. -/
def urlParse (rawURL : Str) : Option GoURL :=
  if !ctrlFree rawURL then none
  else
    let noFrag := match cutCh '#' rawURL with | some p => p.1 | none => rawURL
    match getScheme noFrag with
    | none => none
    | some sr =>
      let scheme := sr.1.map lowerC
      let qcut := cutCh '?' sr.2
      let rest := match qcut with | some p => p.1 | none => sr.2
      let rawQuery := match qcut with | some p => p.2 | none => []
      if !hasPre rest (str "/") then
        if scheme ≠ [] then some ⟨scheme, [], [], [], rawQuery⟩
        else
          let seg := match cutCh '/' rest with | some p => p.1 | none => rest
          if containsCh ':' seg then none
          else (pathUnescape rest).map (fun p => ⟨scheme, [], rest, p, rawQuery⟩)
      else
        if hasPre rest (str "//") && (scheme ≠ [] ∨ !hasPre rest (str "///")) then
          let auth0 := rest.drop 2
          let acut := cutCh '/' auth0
          let authority := match acut with | some p => p.1 | none => auth0
          let rawPath := match acut with | some p => '/' :: p.2 | none => []
          match parseHostModel authority with
          | none => none
          | some h => (pathUnescape rawPath).map (fun p => ⟨scheme, h, rawPath, p, rawQuery⟩)
        else (pathUnescape rest).map (fun p => ⟨scheme, [], rest, p, rawQuery⟩)

/-- banquet.go lines 69-84: CleanUrl trims one leading slash (root maps to a
dot) and repairs a truncated scheme separator. -/
def CleanUrl (rawurl : Str) : Str :=
  if rawurl = str "/" then str "."
  else
    let r := trimPreStr (str "/") rawurl
    match idxSeq (str ":/") r with
    | none => r
    | some idx =>
      if hasPre (r.drop idx) (str "://") then r
      else r.take idx ++ str "://" ++ r.drop (idx + 2)

/-- banquet.go lines 88-167 composed with the url.Parse model: none exactly
when url.Parse rejects the cleaned locator. -/
def ParseBanquetM (rawurl : Str) : Option BanquetRec :=
  (urlParse (CleanUrl rawurl)).map (fun u => ParseBanquetFields u.path u.rawQuery)

/-- The partial record ParseNested builds when the inner parse fails
(banquet.go lines 218-221): only the path is carried. -/
def partialRec (inner : Str) : BanquetRec :=
  { Path := inner, RawQuery := [], Where := [], Table := [], Select := [],
    SortDirection := [], Limit := [], Offset := [], GroupBy := [], Having := [],
    OrderBy := [], DataSetPath := [], ColumnPath := [] }

/-- banquet.go lines 188-224: parse an envelope locator, re-parsing its wire
path-and-query as the inner notation, and recover from an inner-parse failure
with a partial record. -/
def ParseNested (rawURL : Str) : Option BanquetRec :=
  let r := if rawURL = str "/" then rawURL else trimPreStr (str "/") rawURL
  match urlParse r with
  | none => none
  | some outer =>
    let inner := outer.rawPath ++ (if outer.rawQuery ≠ [] then '?' :: outer.rawQuery else [])
    match ParseBanquetM inner with
    | none => some (partialRec inner)
    | some b => some b

/-! Definitions taken from the specification's words, for the refinement
comparisons. -/

/-- Modelled from the spec, section 4.2: the explicit tier strategy splits on
the first two occurrences of the tier delimiter into at most three parts, with
missing trailing parts as empty strings. -/
def explicitTiersSpec (p : Str) : Str × Str × Str :=
  match cutCh ';' p with
  | none => (p, [], [])
  | some ar =>
    match cutCh ';' ar.2 with
    | none => (ar.1, ar.2, [])
    | some bc => (ar.1, bc.1, bc.2)

/-- Modelled from the spec, section 4.6 (amended to the terminal-slice
behavior): the semantics of the bracket content start-colon-end, where the
offset is the start (default zero when omitted), the limit is the clamped
difference when the end is present and otherwise left unset, and non-numeric
content yields neither. -/
def sliceSpec (s e : Str) : Str × Str :=
  let ts := goTrimSpace s
  let te := goTrimSpace e
  match (if ts = [] then some (0 : Int) else goAtoi ts) with
  | none => ([], [])
  | some sv =>
    if te = [] then ([], goItoa sv)
    else
      match goAtoi te with
      | none => ([], [])
      | some ev => (goItoa (if ev - sv < 0 then 0 else ev - sv), goItoa sv)

/-! Supporting lemmas about the string model. -/

theorem hasPre_nil (s : Str) : hasPre s [] = true := by cases s <;> rfl

theorem hasPre_nil_cons (p : Char) (ps : Str) : hasPre [] (p :: ps) = false := rfl

theorem hasPre_cons_cons (c p : Char) (cs ps : Str) :
    hasPre (c :: cs) (p :: ps) = (c == p && hasPre cs ps) := rfl

theorem hasPre_iff {s p : Str} : hasPre s p = true ↔ p <+: s := by
  induction s generalizing p with
  | nil =>
    cases p with
    | nil => simp [hasPre_nil]
    | cons a as => simp [hasPre_nil_cons]
  | cons c cs ih =>
    cases p with
    | nil => simp [hasPre_nil, List.nil_prefix]
    | cons a as =>
      rw [hasPre_cons_cons]
      simp [ih, List.cons_prefix_cons, Bool.and_eq_true, beq_iff_eq, @eq_comm _ c a]

theorem containsCh_cons (c x : Char) (xs : Str) :
    containsCh c (x :: xs) = (x == c || containsCh c xs) := rfl

theorem containsCh_iff {c : Char} {s : Str} : containsCh c s = true ↔ c ∈ s := by
  induction s with
  | nil => simp [containsCh]
  | cons x xs ih =>
    rw [containsCh_cons]
    simp [ih, beq_iff_eq, @eq_comm _ x c]

theorem containsSub_cons (c : Char) (cs sub : Str) :
    containsSub (c :: cs) sub = (hasPre (c :: cs) sub || containsSub cs sub) := rfl

theorem containsSub_iff {s sub : Str} : containsSub s sub = true ↔ sub <:+: s := by
  induction s with
  | nil => simp [containsSub, List.isEmpty_iff]
  | cons c cs ih =>
    rw [containsSub_cons]
    simp [hasPre_iff, ih, List.infix_cons_iff]

theorem cutCh_cons (c x : Char) (xs : Str) :
    cutCh c (x :: xs) =
      (if x == c then some ([], xs) else (cutCh c xs).map (fun p => (x :: p.1, p.2))) := rfl

theorem cutCh_eq_none {c : Char} {s : Str} : cutCh c s = none ↔ containsCh c s = false := by
  induction s with
  | nil => simp [cutCh, containsCh]
  | cons x xs ih =>
    rw [cutCh_cons, containsCh_cons]
    by_cases h : x == c
    · simp [h]
    · simp [h, ih]

theorem trimRightP_cons (p : Char → Bool) (c : Char) (cs : Str) :
    trimRightP p (c :: cs) =
      match trimRightP p cs with
      | [] => if p c then [] else [c]
      | h :: t => c :: h :: t := rfl

theorem trimRightP_pre (p : Char → Bool) (s : Str) : trimRightP p s <+: s := by
  induction s with
  | nil => simp [trimRightP]
  | cons c cs ih =>
    cases h : trimRightP p cs with
    | nil =>
      rw [trimRightP_cons, h]
      by_cases hc : p c = true
      · rw [if_pos hc]
        exact List.nil_prefix
      · rw [if_neg hc]
        exact (List.cons_prefix_cons).2 ⟨rfl, List.nil_prefix⟩
    | cons h1 t1 =>
      rw [h] at ih
      rw [trimRightP_cons, h]
      exact (List.cons_prefix_cons).2 ⟨rfl, ih⟩

theorem trimRightP_idem (p : Char → Bool) (s : Str) :
    trimRightP p (trimRightP p s) = trimRightP p s := by
  induction s with
  | nil => rfl
  | cons c cs ih =>
    cases h : trimRightP p cs with
    | nil =>
      rw [trimRightP_cons, h]
      by_cases hc : p c = true
      · rw [if_pos hc]
        rfl
      · rw [if_neg hc, trimRightP_cons]
        show (match trimRightP p ([] : Str) with
          | [] => if p c then [] else [c]
          | h :: t => c :: h :: t) = [c]
        rw [show trimRightP p ([] : Str) = [] from rfl]
        exact if_neg hc
    | cons h1 t1 =>
      rw [h] at ih
      rw [trimRightP_cons, h, trimRightP_cons, ih]

theorem trimRightP_dropWhile (p : Char → Bool) (s : Str) (hs : trimRightP p s = s) :
    trimRightP p (s.dropWhile p) = s.dropWhile p := by
  induction s with
  | nil => rfl
  | cons c cs ih =>
    by_cases hc : p c = true
    · have hcs : trimRightP p cs = cs := by
        rw [trimRightP_cons] at hs
        cases h2 : trimRightP p cs with
        | nil =>
          rw [h2, if_pos hc] at hs
          exact absurd hs (by simp)
        | cons h1 t1 =>
          rw [h2] at hs
          exact (List.cons.injEq c (h1 :: t1) c cs).mp hs |>.2
      rw [List.dropWhile_cons_of_pos hc]
      exact ih hcs
    · rw [List.dropWhile_cons_of_neg hc]
      exact hs

theorem goTrimSpace_idem (s : Str) : goTrimSpace (goTrimSpace s) = goTrimSpace s := by
  unfold goTrimSpace
  rw [trimRightP_dropWhile _ _ (trimRightP_idem _ _), List.dropWhile_idempotent]

theorem goTrimSpace_within (s : Str) : goTrimSpace s <:+: s :=
  ((List.dropWhile_suffix _).isInfix).trans ((trimRightP_pre _ s).isInfix)

theorem findSomeAppend {g : α → Option β} (l₁ l₂ : List α) :
    List.findSome? g (l₁ ++ l₂) =
      match List.findSome? g l₁ with
      | some r => some r
      | none => List.findSome? g l₂ := by
  induction l₁ with
  | nil => simp
  | cons a l ih =>
    simp only [List.cons_append, List.findSome?_cons]
    cases g a <;> simp [ih]

theorem findSome_flatMapL {f : α → List β} {g : β → Option γ} (l : List α) :
    List.findSome? g (flatMapL f l) =
      List.findSome? (fun x => List.findSome? g (f x)) l := by
  induction l with
  | nil => simp [flatMapL]
  | cons a l ih =>
    simp only [flatMapL, List.findSome?_cons, findSomeAppend]
    cases List.findSome? g (f a) <;> simp [ih]

theorem findSome_split {g : α → Option β} (pre post : List α) (t : α) (r : β)
    (hpre : ∀ u ∈ pre, g u = none) (ht : g t = some r) :
    List.findSome? g (pre ++ t :: post) = some r := by
  induction pre with
  | nil => simp [List.findSome?_cons, ht]
  | cons a l ih =>
    have ha : g a = none := hpre a (by simp)
    simp only [List.cons_append, List.findSome?_cons, ha]
    exact ih (fun u hu => hpre u (by simp [hu]))

theorem filterMap_filter_none {g : α → Option β} {p : α → Bool}
    (h : ∀ x, p x = false → g x = none) (l : List α) :
    List.filterMap g (l.filter p) = List.filterMap g l := by
  induction l with
  | nil => simp
  | cons a l ih =>
    by_cases hp : p a = true
    · simp [List.filter_cons, hp, List.filterMap_cons, ih]
    · have := h a (by simpa using hp)
      simp [List.filter_cons, hp, List.filterMap_cons, this, ih]

theorem flatMapL_congr {f g : α → List β} (h : ∀ a, f a = g a) (l : List α) :
    flatMapL f l = flatMapL g l := by
  induction l with
  | nil => rfl
  | cons a l ih => simp [flatMapL, h a, ih]

theorem mem_flatMapL {f : α → List β} {b : β} {l : List α} :
    b ∈ flatMapL f l ↔ ∃ a ∈ l, b ∈ f a := by
  induction l with
  | nil => simp [flatMapL]
  | cons a l ih => simp [flatMapL, ih, List.mem_append]

theorem containsSub_eq_isSome_idxSeq (s sub : Str) :
    containsSub s sub = (idxSeq sub s).isSome := by
  induction s with
  | nil =>
    show sub.isEmpty = (if sub.isEmpty then some 0 else none).isSome
    by_cases h : sub.isEmpty <;> simp [h]
  | cons c cs ih =>
    rw [containsSub_cons]
    show _ = (if hasPre (c :: cs) sub then some 0 else (idxSeq sub cs).map (· + 1)).isSome
    by_cases h : hasPre (c :: cs) sub <;> simp [h, ih]

theorem idxSeq_cons (sub : Str) (c : Char) (cs : Str) :
    idxSeq sub (c :: cs) =
      (if hasPre (c :: cs) sub then some 0 else (idxSeq sub cs).map (· + 1)) := rfl

theorem hasPre_ne_of_not_contains (c : Char) (cs v : Str)
    (hk : containsSub (c :: cs) strNE = false) :
    hasPre ((c :: cs) ++ (strNE ++ v)) strNE = false := by
  cases cs with
  | nil =>
    show hasPre (c :: '!' :: '=' :: v) ['!', '='] = false
    rw [hasPre_cons_cons, hasPre_cons_cons]
    simp
  | cons d ds =>
    have h1 : hasPre (c :: d :: ds) strNE = false := by
      rw [containsSub_cons, Bool.or_eq_false_iff] at hk
      exact hk.1
    show hasPre (c :: d :: (ds ++ (strNE ++ v))) ['!', '='] = false
    rw [hasPre_cons_cons, hasPre_cons_cons]
    rw [show strNE = ['!', '='] from rfl, hasPre_cons_cons, hasPre_cons_cons] at h1
    rcases Bool.and_eq_false_iff.mp h1 with h | h
    · rw [h]
      rfl
    · rcases Bool.and_eq_false_iff.mp h with h' | h'
      · rw [h']
        simp
      · exact absurd h' (by simp [hasPre_nil])

theorem idxSeq_ne (k v : Str) (hk : containsSub k strNE = false) :
    idxSeq strNE (k ++ (strNE ++ v)) = some k.length := by
  induction k with
  | nil =>
    show idxSeq strNE ('!' :: '=' :: v) = some 0
    rw [idxSeq_cons]
    rw [if_pos (by rw [show strNE = ['!', '='] from rfl, hasPre_cons_cons, hasPre_cons_cons]; simp [hasPre_nil])]
  | cons c cs ih =>
    have h1 : hasPre ((c :: cs) ++ (strNE ++ v)) strNE = false := hasPre_ne_of_not_contains c cs v hk
    have hk2 : containsSub cs strNE = false := by
      rw [containsSub_cons, Bool.or_eq_false_iff] at hk
      exact hk.2
    show idxSeq strNE (c :: (cs ++ (strNE ++ v))) = some (cs.length + 1)
    rw [idxSeq_cons, if_neg (by rw [show (c :: cs) ++ (strNE ++ v) = c :: (cs ++ (strNE ++ v)) from rfl] at h1; simp [h1]), ih hk2]
    rfl

theorem cutSeq_ne (k v : Str) (hk : containsSub k strNE = false) :
    cutSeq strNE (k ++ (strNE ++ v)) = some (k, v) := by
  unfold cutSeq
  rw [idxSeq_ne k v hk]
  have ht : (k ++ (strNE ++ v)).take k.length = k := by
    rw [List.take_append_of_le_length (Nat.le_refl _), List.take_length]
  have hd : (k ++ (strNE ++ v)).drop (k.length + strNE.length) = v := by
    rw [← List.append_assoc]
    have : (k ++ strNE).length = k.length + strNE.length := List.length_append k strNE
    rw [← this, List.drop_left]
  simp only [ht, hd]

theorem containsSub_append_ne (k v : Str) (hk : containsSub k strNE = false) :
    containsSub (k ++ (strNE ++ v)) strNE = true := by
  rw [containsSub_eq_isSome_idxSeq, idxSeq_ne k v hk]
  rfl

theorem goSplitN_three (c : Char) (s : Str) (a r : Str) (hc : cutCh c s = some (a, r)) :
    goSplitN c 3 s = a :: goSplitN c 2 r := by
  show (match cutCh c s with
    | none => [s]
    | some p => p.1 :: goSplitN c 2 p.2) = a :: goSplitN c 2 r
  rw [hc]

theorem goSplitN_two (c : Char) (s : Str) :
    goSplitN c 2 s =
      match cutCh c s with
      | none => [s]
      | some p => [p.1, p.2] := by
  show (match cutCh c s with
    | none => [s]
    | some p => p.1 :: goSplitN c 1 p.2) = _
  cases cutCh c s with
  | none => rfl
  | some p => rfl

theorem selectTok_none_of_sort (u : Str)
    (h : (hasPre u ASC || hasPre u DESC) = true) : selectTok u = none := by
  unfold selectTok
  by_cases h1 : containsSub u strNE = true
  · rw [if_pos h1]
  · rw [if_neg h1, if_pos h]

theorem ParseSelect_eq_star_of_collect_nil (cp : Str)
    (h : selCollect (getSegments cp) = []) : ParseSelect cp = [str "*"] := by
  unfold ParseSelect
  by_cases hs : getSegments cp = []
  · rw [if_pos hs]
  · rw [if_neg hs, if_pos h]

theorem ParseSelect_ne_nil (cp : Str) : ParseSelect cp ≠ [] := by
  unfold ParseSelect
  by_cases hs : getSegments cp = []
  · rw [if_pos hs]
    simp
  · rw [if_neg hs]
    by_cases hc : selCollect (getSegments cp) = []
    · rw [if_pos hc]
      simp
    · rw [if_neg hc]
      exact hc

/-- The flattened token stream of a column path, in segment-then-token order. -/
def flatTokens (columnPath : Str) : List Str :=
  flatMapL (splitCh ',') (splitCh '/' columnPath)

theorem parseOrderBy_flat (cp : Str) :
    ((splitCh '/' cp).findSome? (fun part => (splitCh ',' part).findSome? sortTok)) =
      List.findSome? sortTok (flatTokens cp) := by
  unfold flatTokens
  exact (findSome_flatMapL _).symm

theorem mem_selCollect {segments : List Str} {x : Str} (hx : x ∈ selCollect segments) :
    ∃ tok, selectTok tok = some x := by
  rcases mem_flatMapL.mp hx with ⟨seg, _, hmem⟩
  by_cases h1 : segIsSlice seg = true
  · rw [if_pos h1] at hmem
    exact absurd hmem (by simp)
  · rw [if_neg h1] at hmem
    by_cases h2 : seg = []
    · rw [if_pos h2] at hmem
      exact absurd hmem (by simp)
    · rw [if_neg h2] at hmem
      rcases List.mem_filterMap.mp hmem with ⟨tok, _, htok⟩
      exact ⟨tok, htok⟩

theorem selectTok_shape {tok x : Str} (h : selectTok tok = some x) :
    containsSub tok strNE = false ∧
    x = goTrimSpace (tok.takeWhile (· ≠ '[')) ∧ x ≠ [] := by
  unfold selectTok at h
  by_cases h1 : containsSub tok strNE = true
  · rw [if_pos h1] at h
    exact absurd h (by simp)
  · rw [if_neg h1] at h
    by_cases h2 : (hasPre tok ASC || hasPre tok DESC) = true
    · rw [if_pos h2] at h
      exact absurd h (by simp)
    · rw [if_neg h2] at h
      by_cases h3 : goTrimSpace (tok.takeWhile (· ≠ '[')) = []
      · rw [if_pos h3] at h
        exact absurd h (by simp)
      · rw [if_neg h3] at h
        have hx : x = goTrimSpace (tok.takeWhile (· ≠ '[')) := (Option.some_inj.mp h).symm
        exact ⟨by simpa using h1, hx, fun hempty => h3 (hx.symm.trans hempty)⟩

/-! The claims. -/

/-- Claim C1 (corrected): the heuristic half holds -- for every locator whose
path contains no tier delimiter, so that the Table field comes from the
heuristic table resolver, the Table never contains selector syntax: no comma,
no leading ascending or descending sort token, and no inequality operator.
The explicit semicolon split instead returns its middle tier verbatim, which
can contain selector syntax (see the counterexample). -/
theorem heuristicTable_no_selector_tokens (p q : Str)
    (h : containsCh ';' p = false) :
    containsCh ',' (ParseBanquetFields p q).Table = false ∧
    hasPre (ParseBanquetFields p q).Table ASC = false ∧
    hasPre (ParseBanquetFields p q).Table DESC = false ∧
    containsSub (ParseBanquetFields p q).Table strNE = false := by
  have htiers : (parseDataSetColumnPath p).2.1 = [] := by
    unfold parseDataSetColumnPath
    rw [if_neg (by simp [h])]
    cases heurSplit (splitCh '/' p) with
    | none => rfl
    | some r => rfl
  have htable : (ParseBanquetFields p q).Table = parseTable (parseDataSetColumnPath p).2.2 := by
    simp only [ParseBanquetFields]
    rw [if_pos htiers]
  rw [htable]
  generalize (parseDataSetColumnPath p).2.2 = cp
  simp only [parseTable]
  split_ifs with h0 h1 h2
  · exact ⟨rfl, rfl, rfl, rfl⟩
  · exact ⟨rfl, rfl, rfl, rfl⟩
  · exact ⟨rfl, rfl, rfl, rfl⟩
  · simp only [Bool.or_eq_true, not_or, Bool.not_eq_true] at h2
    exact ⟨h2.1.1.1.1.1.1.1, h2.1.1.1.1.1.1.2, h2.1.1.1.1.1.2, h2.1.1.1.1.2⟩

/-- Claim C1 witness: a concrete semicolon-free locator whose heuristic table
carries no selector syntax. -/
theorem heuristicTable_no_selector_tokens_witness :
    containsCh ';' (str "data.sqlite/users") = false ∧
    containsCh ',' (ParseBanquetFields (str "data.sqlite/users") []).Table = false ∧
    (ParseBanquetFields (str "data.sqlite/users") []).Table = str "users" :=
  ⟨by decide,
   (heuristicTable_no_selector_tokens (str "data.sqlite/users") [] (by decide)).1,
   by decide⟩

/-- Claim C1 counterexample: with the explicit tier split, the Table field is
the middle tier verbatim and here contains commas, refuting the claim that the
Table returned by ParseBanquet never contains selector syntax. -/
theorem explicitTable_selector_counterexample :
    (ParseBanquetFields (str "file.csv;a,b") []).Table = str "a,b" ∧
    containsCh ',' (ParseBanquetFields (str "file.csv;a,b") []).Table = true := by
  constructor
  · decide
  · decide

/-- Claim C2 (confirmed): for a path containing the tier delimiter, the tier
split is exactly the split on the first two occurrences of the semicolon, with
missing trailing parts empty, and the extension heuristic never contributes. -/
theorem explicit_tier_split_spec (p : Str) (h : containsCh ';' p = true) :
    parseDataSetColumnPath p = explicitTiersSpec p := by
  unfold parseDataSetColumnPath explicitTiersSpec
  rw [if_pos h]
  cases hc : cutCh ';' p with
  | none => exact absurd (cutCh_eq_none.mp hc) (by simp [h])
  | some ar =>
    rw [goSplitN_three ';' p ar.1 ar.2 (by rw [hc])]
    cases hc2 : cutCh ';' ar.2 with
    | none =>
      rw [goSplitN_two, hc2]
      simp [hc2]
    | some bc =>
      rw [goSplitN_two, hc2]
      simp [hc2]

/-- Claim C2 witness. -/
theorem explicit_tier_split_spec_witness :
    containsCh ';' (str "a.csv;t;c1,c2") = true ∧
    parseDataSetColumnPath (str "a.csv;t;c1,c2") = explicitTiersSpec (str "a.csv;t;c1,c2") ∧
    explicitTiersSpec (str "a.csv;t;c1,c2") = (str "a.csv", str "t", str "c1,c2") :=
  ⟨by decide, explicit_tier_split_spec (str "a.csv;t;c1,c2") (by decide), by decide⟩

/-- Claim C3 (code bug): the specification and the repository's compose test
expect slice notation found anywhere in the path to set limit and offset (the
test input data.sqlite;users;id[5:15],name expects limit 10 and offset 5), but
parseSlice requires the closing bracket to terminate the path, so that input
parses with no limit and no offset; the same bracket content does produce
limit 10 and offset 5 when it ends the path. -/
theorem slice_mid_path_ignored :
    (ParseBanquetFields (str "data.sqlite;users;id[5:15],name") []).Limit = [] ∧
    (ParseBanquetFields (str "data.sqlite;users;id[5:15],name") []).Offset = [] ∧
    parseSlice (str "data.sqlite;users;id[5:15],name") = ([], []) ∧
    parseSlice (str "data.sqlite;users;id[5:15]") = (str "10", str "5") := by
  refine ⟨by decide, by decide, by decide, by decide⟩

/-- Claim C5 (confirmed): the Where field is the query-parameter where and the
path conditions joined by the AND connective in that order when both are
non-empty, and is the non-empty one (or empty) otherwise. -/
theorem where_combination (p q qw pw : Str)
    (hqw : parseWhere q = qw)
    (hpw : parsePathConditions (parseDataSetColumnPath p).2.2 = pw) :
    (qw ≠ [] → pw ≠ [] → (ParseBanquetFields p q).Where = qw ++ str " AND " ++ pw) ∧
    (pw = [] → (ParseBanquetFields p q).Where = qw) ∧
    (qw = [] → (ParseBanquetFields p q).Where = pw) := by
  subst hqw
  subst hpw
  simp only [ParseBanquetFields]
  refine ⟨fun hq hp => ?_, fun hp => ?_, fun hq => ?_⟩
  · rw [if_pos hp, if_pos hq]
  · rw [if_neg (by simpa using hp)]
  · by_cases hp : parsePathConditions (parseDataSetColumnPath p).2.2 = []
    · rw [if_neg (by simpa using hp), hq, hp]
    · rw [if_pos hp, if_neg (by simpa using hq)]

/-- Claim C5 witness: both sources non-empty. -/
theorem where_combination_witness :
    (ParseBanquetFields (str "d.csv/a!=1,c") (str "where=x>2")).Where =
      str "x>2" ++ str " AND " ++ str "a != 1" :=
  (where_combination (str "d.csv/a!=1,c") (str "where=x>2") (str "x>2") (str "a != 1")
    (by decide) (by decide)).1 (by decide) (by decide)

/-- Claim C7 (confirmed): the Select field is never empty; it is the single
star when no column tokens are collected from the column path, and a resolved
select list consisting of exactly the resolved table name is normalized to the
single star. -/
theorem select_never_empty (p q : Str) :
    (ParseBanquetFields p q).Select ≠ [] ∧
    (selCollect (getSegments (parseDataSetColumnPath p).2.2) = [] →
      (ParseBanquetFields p q).Select = [str "*"]) ∧
    (ParseSelect (parseDataSetColumnPath p).2.2 = [(ParseBanquetFields p q).Table] →
      (ParseBanquetFields p q).Select = [str "*"]) := by
  simp only [ParseBanquetFields]
  refine ⟨?_, fun hc => ?_, fun ht => ?_⟩
  · by_cases h : ParseSelect (parseDataSetColumnPath p).2.2 =
        [if (parseDataSetColumnPath p).2.1 = [] then parseTable (parseDataSetColumnPath p).2.2
         else (parseDataSetColumnPath p).2.1]
    · rw [if_pos h]
      simp
    · rw [if_neg h]
      exact ParseSelect_ne_nil _
  · rw [ParseSelect_eq_star_of_collect_nil _ hc]
    by_cases h : ([str "*"] : List Str) =
        [if (parseDataSetColumnPath p).2.1 = [] then parseTable (parseDataSetColumnPath p).2.2
         else (parseDataSetColumnPath p).2.1]
    · rw [if_pos h]
    · rw [if_neg h]
  · rw [if_pos ht]

/-- Claim C7 witness: a bare dataset path collects no columns and selects the
star; a bare table path is normalized from the one-element table selection to
the star. -/
theorem select_never_empty_witness :
    (ParseBanquetFields (str "data.sqlite") []).Select = [str "*"] ∧
    (ParseBanquetFields (str "db.sqlite/mytable") []).Select = [str "*"] :=
  ⟨(select_never_empty (str "data.sqlite") []).2.1 (by decide),
   (select_never_empty (str "db.sqlite/mytable") []).2.2 (by decide)⟩

/-- Claim C8 (code bug): the heuristic table resolver keeps a trailing
bracket-slice suffix, so data.sqlite/users[10:30] resolves the table to
users[10:30] and composes with the suffix inside the quoted table name,
refuting the repository's own expectation of SELECT star FROM users with
limit 20 and offset 10. -/
theorem compose_slice_table_code_bug :
    (ParseBanquetFields (str "data.sqlite/users[10:30]") []).Table = str "users[10:30]" ∧
    Compose (ParseBanquetFields (str "data.sqlite/users[10:30]") []) =
      str "SELECT \"users\" FROM \"users[10:30]\" LIMIT 20 OFFSET 10" ∧
    Compose (ParseBanquetFields (str "data.sqlite/users[10:30]") []) ≠
      str "SELECT * FROM \"users\" LIMIT 20 OFFSET 10" := by
  refine ⟨by decide, by decide, by decide⟩

/-- Claim C10 counterexample: a token whose sort sign is preceded by
whitespace passes the sort-prefix check unskipped and is trimmed afterwards,
so the select list contains an element beginning with the ascending token,
refuting the claim that no element begins with a sort sign. -/
theorem select_element_sort_sign_counterexample :
    ParseSelect (str "a, +b") = [str "a", str "+b"] ∧
    hasPre (str "+b") ASC = true ∧
    ParseSelect (str "a, +b") ≠ [str "*"] := by
  refine ⟨by decide, by decide, by decide⟩

/-- Claim C4 (confirmed): with no orderby query parameter, if the flattened
token stream of the column path is pre, then t, then post, where no token of
pre carries a sort sign after trimming and bracket-stripping and t does, then
parseOrderBy returns exactly t's column and direction; and the collected
select list is unchanged when every token carrying a literal sort sign is
removed before collection, i.e. sort-prefixed tokens never reach the select
list. -/
theorem first_sort_token_wins (cp q : Str) (pre post : List Str) (t ob dir : Str)
    (hq : queryGet q (str "orderby") = [])
    (hsplit : flatTokens cp = pre ++ t :: post)
    (hpre : ∀ u ∈ pre, sortTok u = none)
    (ht : sortTok t = some (ob, dir)) :
    parseOrderBy cp q = (ob, dir) ∧
    selCollect (getSegments cp) =
      flatMapL
        (fun seg =>
          if segIsSlice seg then []
          else if seg = [] then []
          else List.filterMap selectTok
            ((splitCh ',' seg).filter (fun u => !(hasPre u ASC || hasPre u DESC))))
        (getSegments cp) := by
  constructor
  · simp only [parseOrderBy, hq, ne_eq, not_true_eq_false, if_false]
    rw [parseOrderBy_flat, hsplit, findSome_split pre post t (ob, dir) hpre ht]
  · unfold selCollect
    apply flatMapL_congr
    intro seg
    by_cases h1 : segIsSlice seg = true
    · rw [if_pos h1, if_pos h1]
    · rw [if_neg h1, if_neg h1]
      by_cases h2 : seg = []
      · rw [if_pos h2, if_pos h2]
      · rw [if_neg h2, if_neg h2]
        exact (filterMap_filter_none
          (fun u hu => selectTok_none_of_sort u (by
            revert hu
            cases hasPre u ASC || hasPre u DESC <;> simp)) _).symm

/-- Claim C4 witness: among a, then ascending b, then descending c, the
ascending b wins. -/
theorem first_sort_token_wins_witness :
    parseOrderBy (str "a,+b,-c") [] = (str "b", str "ASC") :=
  (first_sort_token_wins (str "a,+b,-c") [] [str "a"] [str "-c"] (str "+b")
    (str "b") (str "ASC") (by decide) (by decide) (by decide) (by decide)).1

/-- Claim C6 (confirmed): a filter token built from a column part containing
no inequality operator, the operator, and a value is rendered as the trimmed
column, the spaced operator, and the formatted value -- percent-decoded when
decoding succeeds and raw otherwise, unquoted when it parses as a number and
otherwise single-quoted with embedded quotes doubled (that is condValue) --
and parsePathConditions is the AND-join of the conditions of all classified
segment tokens. -/
theorem path_condition_format (cp k v : Str) (hk : containsSub k strNE = false) :
    condOfTok (k ++ (strNE ++ v)) =
      some (goTrimSpace k ++ str " != " ++ condValue (goTrimSpace v)) ∧
    parsePathConditions cp =
      joinSep (str " AND ")
        (flatMapL
          (fun seg => if seg = [] then [] else List.filterMap condOfTok (splitCh ',' seg))
          (getSegments cp)) := by
  constructor
  · unfold condOfTok
    rw [if_pos (containsSub_append_ne k v hk), cutSeq_ne k v hk]
  · simp only [parsePathConditions]
    by_cases h1 : getSegments cp = []
    · rw [if_pos h1, h1]
      rfl
    · rw [if_neg h1]
      by_cases h2 : flatMapL
          (fun seg => if seg = [] then [] else List.filterMap condOfTok (splitCh ',' seg))
          (getSegments cp) = []
      · rw [if_pos h2, h2]
        rfl
      · rw [if_neg h2]

/-- Claim C6 witness: a numeric value stays unquoted; a percent-encoded value
is decoded, quoted, and its embedded single quote doubled. -/
theorem path_condition_format_witness :
    condOfTok (str "age" ++ (strNE ++ str "30")) = some (str "age != 30") ∧
    condOfTok (str "name" ++ (strNE ++ str "J%27oe")) =
      some (str "name != " ++ ['\'', 'J', '\'', '\'', 'o', 'e', '\'']) :=
  ⟨((path_condition_format [] (str "age") (str "30") (by decide)).1).trans (by decide),
   ((path_condition_format [] (str "name") (str "J%27oe") (by decide)).1).trans (by decide)⟩

/-- Claim C9 (confirmed): whenever the outer envelope parses and the inner
path-and-query extracted from it fails to parse as Banquet notation,
ParseNested succeeds (the inner error is never propagated) and returns the
partial record whose path is the raw extracted inner string and whose
query-derived fields are all empty. -/
theorem parseNested_swallows_inner_error (rawURL : Str) (outer : GoURL)
    (h1 : urlParse (if rawURL = str "/" then rawURL else trimPreStr (str "/") rawURL) =
      some outer)
    (h2 : ParseBanquetM
      (outer.rawPath ++ (if outer.rawQuery ≠ [] then '?' :: outer.rawQuery else [])) = none) :
    ParseNested rawURL =
      some (partialRec
        (outer.rawPath ++ (if outer.rawQuery ≠ [] then '?' :: outer.rawQuery else []))) ∧
    (partialRec
        (outer.rawPath ++ (if outer.rawQuery ≠ [] then '?' :: outer.rawQuery else []))).Path =
      outer.rawPath ++ (if outer.rawQuery ≠ [] then '?' :: outer.rawQuery else []) ∧
    (partialRec
        (outer.rawPath ++ (if outer.rawQuery ≠ [] then '?' :: outer.rawQuery else []))).Where = [] ∧
    (partialRec
        (outer.rawPath ++ (if outer.rawQuery ≠ [] then '?' :: outer.rawQuery else []))).Table = [] ∧
    (partialRec
        (outer.rawPath ++ (if outer.rawQuery ≠ [] then '?' :: outer.rawQuery else []))).Select = [] ∧
    (partialRec
        (outer.rawPath ++ (if outer.rawQuery ≠ [] then '?' :: outer.rawQuery else []))).Limit = [] ∧
    (partialRec
        (outer.rawPath ++ (if outer.rawQuery ≠ [] then '?' :: outer.rawQuery else []))).Offset = [] ∧
    (partialRec
        (outer.rawPath ++ (if outer.rawQuery ≠ [] then '?' :: outer.rawQuery else []))).OrderBy = [] ∧
    (partialRec
        (outer.rawPath ++ (if outer.rawQuery ≠ [] then '?' :: outer.rawQuery else []))).GroupBy = [] ∧
    (partialRec
        (outer.rawPath ++ (if outer.rawQuery ≠ [] then '?' :: outer.rawQuery else []))).Having = [] := by
  refine ⟨?_, rfl, rfl, rfl, rfl, rfl, rfl, rfl, rfl, rfl⟩
  simp only [ParseNested]
  rw [h1]
  show (match ParseBanquetM
      (outer.rawPath ++ (if outer.rawQuery ≠ [] then '?' :: outer.rawQuery else [])) with
    | none => some (partialRec
        (outer.rawPath ++ (if outer.rawQuery ≠ [] then '?' :: outer.rawQuery else [])))
    | some b => some b) =
    some (partialRec (outer.rawPath ++ (if outer.rawQuery ≠ [] then '?' :: outer.rawQuery else [])))
  rw [h2]

/-- Claim C9 witness: the envelope parses, CleanUrl turns the inner path into
a locator with a digit-leading scheme position that url.Parse rejects, and
ParseNested still succeeds with the partial record. -/
theorem parseNested_swallows_inner_error_witness :
    ParseNested (str "http://h/0:/y") = some (partialRec (str "/0:/y")) :=
  ((parseNested_swallows_inner_error (str "http://h/0:/y")
    ⟨str "http", str "h", str "/0:/y", str "/0:/y", []⟩ (by decide) (by decide)).1).trans
    (by decide)

/-- Claim C10 (corrected): every element of the list returned by ParseSelect
is a non-empty whitespace-trimmed token containing no inequality operator and
no opening bracket.  The claim's further clause that no element begins with a
sort sign fails: the sort-prefix check precedes trimming, so a token with
whitespace before the sign survives into the select list (see the
counterexample). -/
theorem select_element_shape (cp x : Str) (hx : x ∈ ParseSelect cp) :
    x ≠ [] ∧ goTrimSpace x = x ∧ containsSub x strNE = false ∧
    containsCh '[' x = false := by
  unfold ParseSelect at hx
  by_cases hs : getSegments cp = []
  · rw [if_pos hs] at hx
    have hxe : x = str "*" := by simpa using hx
    subst hxe
    exact ⟨by decide, by decide, by decide, by decide⟩
  · rw [if_neg hs] at hx
    by_cases hc : selCollect (getSegments cp) = []
    · rw [if_pos hc] at hx
      have hxe : x = str "*" := by simpa using hx
      subst hxe
      exact ⟨by decide, by decide, by decide, by decide⟩
    · rw [if_neg hc] at hx
      rcases mem_selCollect hx with ⟨tok, htok⟩
      rcases selectTok_shape htok with ⟨hne, hxeq, hxne⟩
      subst hxeq
      refine ⟨hxne, goTrimSpace_idem _, ?_, ?_⟩
      · by_contra hcon
        rw [Bool.not_eq_false] at hcon
        have hinf : strNE <:+: goTrimSpace (tok.takeWhile (· ≠ '[')) :=
          containsSub_iff.mp hcon
        have h3 : tok.takeWhile (· ≠ '[') <+: tok := List.takeWhile_prefix _
        have hfin : strNE <:+: tok :=
          (hinf.trans (goTrimSpace_within _)).trans h3.isInfix
        rw [← containsSub_iff] at hfin
        rw [hne] at hfin
        exact absurd hfin (by simp)
      · by_contra hcon
        rw [Bool.not_eq_false] at hcon
        have hmem : '[' ∈ goTrimSpace (tok.takeWhile (· ≠ '[')) :=
          containsCh_iff.mp hcon
        have hmem2 : '[' ∈ tok.takeWhile (· ≠ '[') :=
          (goTrimSpace_within _).subset hmem
        have := List.mem_takeWhile_imp hmem2
        simp at this

/-- Claim C10 witness: a concrete element of a select list satisfying the
shape properties. -/
theorem select_element_shape_witness :
    str "a" ∈ ParseSelect (str "a,b") ∧
    (str "a" ≠ [] ∧ goTrimSpace (str "a") = str "a" ∧
      containsSub (str "a") strNE = false ∧ containsCh '[' (str "a") = false) :=
  ⟨by decide, select_element_shape (str "a,b") (str "a") (by decide)⟩

end Banquet
